import Mathlib

/-!
A shallow embedding of the pharmacy invoice generator
(`app/models.py`, `app/data_store.py`, `app/ui_main.py`,
`app/models/medicine.py`, `app/data/excel_repo.py`, `app/ui/main_window.py`)
together with proofs about the inventory/invoice consistency logic.

Money values are modelled by `Rat` (the spec declares full-precision
internal arithmetic with rounding deferred to presentation); machine
integers by `Int`.  Spreadsheet cells hold dynamic Python values,
modelled by the `Value` type.  UI glue (widgets, message boxes) is
modelled only through the state fields and signals the logic reads and
writes.
-/

namespace PharmaSpec

/-- A spreadsheet cell value as seen by the Python code: `None`, a string,
an int, or a float (modelled as `Rat`). -/
inductive Value where
  | vnone
  | vstr (s : String)
  | vint (n : Int)
  | vrat (q : Rat)
deriving DecidableEq

/-- Python truthiness for the cell values above (`None`, `""`, `0` are falsy),
as used by `row[...] or ""` in `_read_rows` / `list_medicines`. -/
def pyTruthy : Value → Bool
  | .vnone => false
  | .vstr s => s != ""
  | .vint n => n != 0
  | .vrat q => q != 0

/-- Python `str(value)` for cell values. -/
def pyStr : Value → String
  | .vnone => "None"
  | .vstr s => s
  | .vint n => toString n
  | .vrat q => toString q

/-- Python `value in (None, "")`, the blank test used by `_to_int`,
`_to_float` and the name-cell skip in `_read_rows`. -/
def isBlank : Value → Bool
  | .vnone => true
  | .vstr s => s == ""
  | _ => false

/-- `value or ""` followed by `str(...)`, as applied to the MG and Rack
cells during loading. -/
def orEmptyStr (v : Value) : String :=
  if pyTruthy v then pyStr v else ""

/-- Digits of a numeral to a natural number. -/
def digitsToNat (l : List Char) : Nat :=
  l.foldl (fun a c => a * 10 + (c.toNat - 48)) 0

/-- Non-empty all-digit check. -/
def allDigits (l : List Char) : Bool :=
  !l.isEmpty && l.all Char.isDigit

/-- Surrounding-whitespace strip on a character list (Python `str.strip()`
restricted to ASCII whitespace; the code only ever strips spreadsheet
names and search text). -/
def stripList (l : List Char) : List Char :=
  ((l.dropWhile Char.isWhitespace).reverse.dropWhile Char.isWhitespace).reverse

/-- Python `s.strip()`. -/
def pyStrip (s : String) : String :=
  ⟨stripList s.data⟩

/-- Python `int(s)` on a string: surrounding whitespace, an optional sign
and digits; `none` on a non-numeric string. -/
def pyIntOfStr (s : String) : Option Int :=
  match stripList s.data with
  | '-' :: rest => if allDigits rest then some (-(digitsToNat rest : Int)) else none
  | '+' :: rest => if allDigits rest then some ((digitsToNat rest : Int)) else none
  | t => if allDigits t then some ((digitsToNat t : Int)) else none

/-- Python `float(s)` on plain decimal literals (optional sign, digits,
optional fractional part); returns `none` on a non-numeric string.
Exponent forms are not modelled; the claims only need that blank or
non-numeric strings fail to parse and plain numerals succeed. -/
def pyFloatOfStr (s : String) : Option Rat :=
  let t := stripList s.data
  let sb : Rat × List Char :=
    match t with
    | '-' :: rest => (-1, rest)
    | '+' :: rest => (1, rest)
    | _ => (1, t)
  match sb.2.span (fun c => c != '.') with
  | (a, []) => if allDigits a then some (sb.1 * (digitsToNat a : Rat)) else none
  | (a, _dot :: b) =>
      if b.all (fun c => c != '.') && (allDigits a || a.isEmpty)
          && (allDigits b || b.isEmpty) && !(a.isEmpty && b.isEmpty) then
        some (sb.1 * ((digitsToNat a : Rat) + (digitsToNat b : Rat) / (10 ^ b.length)))
      else none

/-- `ExcelDataStore._to_int` / `ExcelRepository._to_int`: blank cells and
unparsable values yield `default`; ints pass through; floats truncate
toward zero as Python `int()` does; strings parse as integer literals. -/
def toIntCell (v : Value) (default : Int) : Int :=
  if isBlank v then default
  else match v with
    | .vint n => n
    | .vrat q => Int.tdiv q.num (q.den : Int)
    | .vstr s => (pyIntOfStr s).getD default
    | .vnone => default

/-- `ExcelDataStore._to_float` / `ExcelRepository._to_float`: blank cells
yield `default`; ints and floats pass through; strings parse as decimal
literals, defaulting when non-numeric. -/
def toFloatCell (v : Value) (default : Option Rat) : Option Rat :=
  if isBlank v then default
  else match v with
    | .vint n => some (n : Rat)
    | .vrat q => some q
    | .vstr s => match pyFloatOfStr s with
        | some q => some q
        | none => default
    | .vnone => default

/-- `_normalize_name`: `str(name).strip().lower()`. -/
def normalizeName (s : String) : String :=
  ⟨(stripList s.data).map Char.toLower⟩

/-- Normalized name of a name cell (`_normalize_name(name_val)`). -/
def normValue (v : Value) : String :=
  normalizeName (pyStr v)

/-! ### Association lists with Python-dict semantics
`lookupA` finds the first (unique) binding; `updateA` overwrites in place
or appends, mirroring dict insertion-order semantics. -/

/-- First-match lookup in an association list. -/
def lookupA {α : Type} : List (String × α) → String → Option α
  | [], _ => none
  | (k, v) :: rest, key => if k = key then some v else lookupA rest key

/-- Lookup with a default (`dict.get(key, d)`). -/
def lookupD {α : Type} (l : List (String × α)) (key : String) (d : α) : α :=
  (lookupA l key).getD d

/-- Dict write: overwrite the existing binding in place, else append. -/
def updateA {α : Type} : List (String × α) → String → α → List (String × α)
  | [], key, v => [(key, v)]
  | (k, w) :: rest, key, v =>
      if k = key then (key, v) :: rest else (k, w) :: updateA rest key v

/-! ### Invoice model (`app/models.py`) -/

/-- `models.InvoiceItem`. -/
structure InvoiceItemM where
  name : String
  mg : String
  rack : String
  unitPrice : Rat
  qty : Int
deriving DecidableEq

/-- `InvoiceItem.line_total = unit_price * qty`. -/
def InvoiceItemM.lineTotal (it : InvoiceItemM) : Rat :=
  it.unitPrice * (it.qty : Rat)

/-- `models.Invoice`: an ordered list of line items. -/
structure Invoice where
  items : List InvoiceItemM
deriving DecidableEq

/-- The scan-and-merge loop inside `Invoice.add_item`: increment the first
item with the same (exact) name, else append at the end. -/
def addItemList : List InvoiceItemM → InvoiceItemM → List InvoiceItemM
  | [], it => [it]
  | x :: xs, it =>
      if x.name = it.name then { x with qty := x.qty + it.qty } :: xs
      else x :: addItemList xs it

/-- `Invoice.add_item`. -/
def Invoice.addItem (inv : Invoice) (it : InvoiceItemM) : Invoice :=
  ⟨addItemList inv.items it⟩

/-- `Invoice.subtotal`. -/
def Invoice.subtotal (inv : Invoice) : Rat :=
  (inv.items.map InvoiceItemM.lineTotal).sum

/-- `Invoice.discount_amount`. -/
def Invoice.discountAmount (inv : Invoice) (percent : Rat) : Rat :=
  inv.subtotal * (percent / 100)

/-- `Invoice.net_total`. -/
def Invoice.netTotal (inv : Invoice) (percent : Rat) : Rat :=
  inv.subtotal - inv.discountAmount percent

/-- `Invoice.total_qty`. -/
def Invoice.totalQty (inv : Invoice) : Int :=
  (inv.items.map InvoiceItemM.qty).sum

/-! ### Excel data store (`app/data_store.py`)
The workbook's data rows (`min_row=2`) are modelled as a list of `Row`s;
the column map is fixed by the required-columns check at load time, so a
`Row` simply names its six cells.  The on-disk file and the in-memory
sheet are separate fields of `Store`, so that "mutated but not yet
saved" states are visible. -/

/-- One data row of the sheet: the six required cells. -/
structure Row where
  nameCell : Value
  mgCell : Value
  rackCell : Value
  stockCell : Value
  priceCell : Value
  actualCell : Value
deriving DecidableEq

/-- The record dict built for one row in `_read_rows`: display name,
MG, rack, parsed stock, and the effective price (`Actual_Price` when
present and non-blank, else `Price`). -/
structure MedRecord where
  name : String
  mg : String
  rack : String
  stock : Int
  price : Rat
deriving DecidableEq

/-- Parse one row into its record, as `_read_rows` does. -/
def parseRec (r : Row) : MedRecord :=
  let priceVal := (toFloatCell r.priceCell (some 0)).getD 0
  let actualVal := toFloatCell r.actualCell none
  { name := pyStr r.nameCell
    mg := orEmptyStr r.mgCell
    rack := orEmptyStr r.rackCell
    stock := toIntCell r.stockCell 0
    price := actualVal.getD priceVal }

/-- Accumulator of `_read_rows`: display names in sheet order, records
keyed by normalized name, and row references keyed by normalized name. -/
structure LoadAcc where
  names : List String
  records : List (String × MedRecord)
  rowRefs : List (String × Nat)
deriving DecidableEq

/-- One iteration of the `_read_rows` loop at row index `i`: skip rows with
a blank name cell, otherwise append the display name and overwrite the
record and row reference for the normalized name. -/
def readStep (acc : LoadAcc) (ir : Nat × Row) : LoadAcc :=
  let r := ir.2
  if isBlank r.nameCell then acc
  else
    let rec0 := parseRec r
    let norm := normalizeName rec0.name
    { names := acc.names ++ [rec0.name]
      records := updateA acc.records norm rec0
      rowRefs := updateA acc.rowRefs norm ir.1 }

/-- `ExcelDataStore._read_rows` over the data rows. -/
def readRows (rows : List Row) : LoadAcc :=
  rows.enum.foldl readStep ⟨[], [], []⟩

/-- The store: in-memory sheet, on-disk file, and the loaded maps. -/
structure Store where
  sheetRows : List Row
  fileRows : List Row
  names : List String
  records : List (String × MedRecord)
  rowRefs : List (String × Nat)
deriving DecidableEq

/-- Constructing an `ExcelDataStore` over a source whose required columns
are present: read all rows from the file.  (Missing file / sheet /
columns raise before any store exists and are outside these claims.) -/
def loadStore (fileRows : List Row) : Store :=
  let acc := readRows fileRows
  { sheetRows := fileRows, fileRows := fileRows
    names := acc.names, records := acc.records, rowRefs := acc.rowRefs }

/-- `ExcelDataStore.get_medicine`: lookup by normalized name. -/
def getMedicine (st : Store) (name : String) : Option MedRecord :=
  lookupA st.records (normalizeName name)

/-- `ExcelDataStore.get_all_names`. -/
def getAllNames (st : Store) : List String :=
  st.names

/-- Overwrite a row's stock cell (`self._sheet[ref].value = new_stock`). -/
def setStockCell (r : Row) (v : Value) : Row :=
  { r with stockCell := v }

/-- The exceptions `reduce_stock` can raise. -/
inductive StockErr where
  | badQty
  | notFound
  | insufficientStock
deriving DecidableEq

/-- `ExcelDataStore.reduce_stock`: reject non-positive quantities, then
unknown names, then insufficient stock; on success update the record's
in-memory stock and the in-memory sheet cell.  The on-disk rows are
untouched (persisting is `save`). -/
def reduceStock (st : Store) (name : String) (qty : Int) : Except StockErr Store :=
  if qty ≤ 0 then .error .badQty
  else
    let norm := normalizeName name
    match lookupA st.records norm with
    | none => .error .notFound
    | some rec0 =>
        let newStock := rec0.stock - qty
        if newStock < 0 then .error .insufficientStock
        else
          let records' := updateA st.records norm { rec0 with stock := newStock }
          let sheet' :=
            match lookupA st.rowRefs norm with
            | some i =>
                match st.sheetRows.get? i with
                | some row => st.sheetRows.set i (setStockCell row (.vint newStock))
                | none => st.sheetRows
            | none => st.sheetRows
          .ok { st with records := records', sheetRows := sheet' }

/-- `ExcelDataStore.save`: persist the in-memory sheet to the file. -/
def saveStore (st : Store) : Store :=
  { st with fileRows := st.sheetRows }

/-- `ExcelDataStore.self_check` is `True` for any store built by
`loadStore` (the column map passed the required-columns check). -/
def selfCheck (_st : Store) : Bool :=
  true

/-- Does this row bind the normalized key `norm`: a non-blank name cell
whose normalized display name is `norm`?  (Dict overwrites make the last
such row the one that wins in `_records` / `_row_refs`.) -/
def matchesNorm (norm : String) (r : Row) : Bool :=
  !(isBlank r.nameCell) && decide (normValue r.nameCell = norm)

/-- The last row binding `norm`, together with its index. -/
def lastMatch (norm : String) : List Row → Option (Nat × Row)
  | [] => none
  | r :: rs =>
      match lastMatch norm rs with
      | some (i, row) => some (i + 1, row)
      | none => if matchesNorm norm r then some (0, r) else none

/-! ### Session controller (`app/ui_main.py`, `MainWindow`)
The window state: the store, the invoice, the reservation ledger
(`added_qty`), the selected name, and the available-stock figure shown
in the stock label (`none` when the labels are cleared to `"-"`).  The
other detail labels carry no logic and are not modelled.  A loaded
store is always present (`self.store` is only `None` when the Excel
load failed, in which case add/print are disabled). -/

structure UIState where
  store : Store
  invoice : Invoice
  addedQty : List (String × Int)
  selectedName : Option String
  stockShown : Option Int
deriving DecidableEq

/-- `MainWindow._available_stock`: `max(record.stock - added_qty.get(name, 0), 0)`,
`0` for unknown names. -/
def availableStock (s : UIState) (name : String) : Int :=
  match getMedicine s.store name with
  | none => 0
  | some r => max (r.stock - lookupD s.addedQty r.name 0) 0

/-- `MainWindow._clear_selection`. -/
def clearSel (s : UIState) : UIState :=
  { s with selectedName := none, stockShown := none }

/-- `MainWindow._select_medicine`: look the name up; on a miss clear the
selection and return; on a hit set the selected name to the record's
display name and show its available stock. -/
def selectMedicineOp (s : UIState) (name : String) : UIState :=
  match getMedicine s.store name with
  | none => clearSel s
  | some r =>
      { s with selectedName := some r.name
               stockShown := some (availableStock s r.name) }

/-- The message boxes the session controller can pop. -/
inductive UISig where
  | notFoundMsg
  | noSelection
  | missingSelected
  | insufficient (avail : Int)
  | added
deriving DecidableEq

/-- `MainWindow._on_search_enter`: strip the query; ignore empty text;
select on a hit, otherwise report "not found" and clear the selection. -/
def onSearchEnter (s : UIState) (text : String) : UIState × Option UISig :=
  let t := pyStrip text
  if t = "" then (s, none)
  else
    match getMedicine s.store t with
    | some r => (selectMedicineOp s r.name, none)
    | none => (clearSel s, some .notFoundMsg)

/-- `MainWindow._add_to_invoice` for a requested quantity `qty` (the Qt
spin box constrains `qty ≥ 1`): require a selection and a record, reject
`qty > available` with the available amount, else merge into the invoice,
bump the reservation ledger, and re-select the medicine. -/
def addToInvoice (s : UIState) (qty : Int) : UIState × UISig :=
  match s.selectedName with
  | none => (s, .noSelection)
  | some sel =>
      match getMedicine s.store sel with
      | none => (s, .missingSelected)
      | some r =>
          let avail := availableStock s r.name
          if avail < qty then (s, .insufficient avail)
          else
            let item : InvoiceItemM :=
              { name := r.name, mg := r.mg, rack := r.rack
                unitPrice := r.price, qty := qty }
            let s' :=
              { s with invoice := s.invoice.addItem item
                       addedQty := updateA s.addedQty r.name
                         (lookupD s.addedQty r.name 0 + qty) }
            (selectMedicineOp s' r.name, .added)

/-- Fold a sequence of add-to-cart requests, keeping only the state. -/
def runAdds (s : UIState) (qtys : List Int) : UIState :=
  qtys.foldl (fun st q => (addToInvoice st q).1) s

/-- `reduce_stock` applied to each invoice line inside the `try` of
`_on_print`: an exception stops the loop, keeping the decrements already
applied. -/
def reduceAll : Store → List InvoiceItemM → Store × Option StockErr
  | st, [] => (st, none)
  | st, it :: rest =>
      match reduceStock st it.name it.qty with
      | .ok st' => reduceAll st' rest
      | .error e => (st, some e)

/-- `MainWindow._clear_invoice`: fresh invoice, empty ledger, cleared
selection, and a reload of the store from the file. -/
def clearInvoiceOp (s : UIState) : UIState :=
  { store := loadStore s.store.fileRows
    invoice := ⟨[]⟩
    addedQty := []
    selectedName := none
    stockShown := none }

/-- Checkout outcomes of `_on_print`. -/
inductive PrintSig where
  | noItems
  | printFailed
  | stockUpdateFailed
  | printedOk
deriving DecidableEq

/-- `MainWindow._on_print` with the printer's validity as the
collaborator's success flag: an empty invoice or an invalid printer
returns before any stock mutation; otherwise decrement every line,
save, and clear the invoice (which reloads the store). -/
def onPrint (s : UIState) (printerValid : Bool) : UIState × PrintSig :=
  if s.invoice.items.isEmpty then (s, .noItems)
  else if printerValid = false then (s, .printFailed)
  else
    match reduceAll s.store s.invoice.items with
    | (st', some _) => ({ s with store := st' }, .stockUpdateFailed)
    | (st', none) =>
        (clearInvoiceOp { s with store := saveStore st' }, .printedOk)

/-! ### Second implementation (`app/models/medicine.py`,
`app/data/excel_repo.py`, `app/ui/main_window.py`) -/

/-- `medicine.Medicine`. -/
structure Medicine where
  name : String
  mg : String
  rackNumber : String
  stock : Int
  price : Rat
  actualPrice : Option Rat
deriving DecidableEq

/-- `Medicine.effective_price`: the override when present, else the list
price (an `Optional[float]` is never `""`). -/
def Medicine.effectivePrice (m : Medicine) : Rat :=
  m.actualPrice.getD m.price

/-- `medicine.InvoiceItem` (the second implementation's line item). -/
structure InvoiceItem2 where
  medicine : Medicine
  quantity : Int
deriving DecidableEq

/-- `InvoiceItem.line_total = quantity * effective_price`. -/
def InvoiceItem2.lineTotal (it : InvoiceItem2) : Rat :=
  (it.quantity : Rat) * it.medicine.effectivePrice

/-- Parse one row into a `Medicine`, as `ExcelRepository.list_medicines`
does. -/
def parseMedicine (r : Row) : Medicine :=
  { name := pyStr r.nameCell
    mg := orEmptyStr r.mgCell
    rackNumber := orEmptyStr r.rackCell
    stock := toIntCell r.stockCell 0
    price := (toFloatCell r.priceCell (some 0)).getD 0
    actualPrice := toFloatCell r.actualCell none }

/-- `ExcelRepository.list_medicines`: every row with a truthy name cell. -/
def listMedicines (rows : List Row) : List Medicine :=
  rows.filterMap (fun r => if pyTruthy r.nameCell then some (parseMedicine r) else none)

/-- `ExcelRepository.save_stock_updates`: write the new stock into every
row whose name cell equals a key of the updates dict (only string cells
can equal a string key). -/
def saveStockUpdates (rows : List Row) (levels : List (String × Int)) : List Row :=
  rows.map (fun r =>
    match r.nameCell with
    | .vstr s =>
        match lookupA levels s with
        | some v => { r with stockCell := .vint v }
        | none => r
    | _ => r)

/-- The second window's state: the name-keyed medicine dict, the line
items, the per-name quantities, the selection, the repository's
in-memory sheet and the on-disk file. -/
structure UI2State where
  medsByName : List (String × Medicine)
  invoiceItems : List InvoiceItem2
  invoiceQty : List (String × Int)
  selectedMedicine : Option Medicine
  repoRows : List Row
  fileRows2 : List Row
deriving DecidableEq

/-- `{m.name: m for m in medicines}` (dict build, later rows overwrite). -/
def medsDict (ms : List Medicine) : List (String × Medicine) :=
  ms.foldl (fun d m => updateA d m.name m) []

/-- The loop of `MainWindow._add_or_update_item`: bump the quantity of the
first item with the same (exact) medicine name, else append. -/
def addOrUpdateList : List InvoiceItem2 → Medicine → Int → List InvoiceItem2
  | [], m, q => [⟨m, q⟩]
  | x :: xs, m, q =>
      if x.medicine.name = m.name then { x with quantity := x.quantity + q } :: xs
      else x :: addOrUpdateList xs m q

/-- `MainWindow._add_or_update_item`: merge into the item list and bump
`invoice_quantities[name]`. -/
def addOrUpdateItem (items : List InvoiceItem2) (ledger : List (String × Int))
    (m : Medicine) (q : Int) : List InvoiceItem2 × List (String × Int) :=
  (addOrUpdateList items m q, updateA ledger m.name (lookupD ledger m.name 0 + q))

/-- Checkout outcomes of `_on_print_clicked`. -/
inductive Print2Sig where
  | nothingToPrint
  | printFailed2
  | printed2
deriving DecidableEq

/-- `MainWindow._on_print_clicked` with the `ReceiptPrinter`'s success
flag: an empty invoice or a failed print returns before any stock
mutation; otherwise `_persist_stock_changes` (new levels `max(stock -
used, 0)` for every medicine, written back and saved) followed by
`_reset_invoice` (clear the invoice and reload the inventory from the
file). -/
def onPrintClicked (s : UI2State) (printSuccess : Bool) : UI2State × Print2Sig :=
  if s.invoiceItems.isEmpty then (s, .nothingToPrint)
  else if printSuccess = false then (s, .printFailed2)
  else
    let levels := s.medsByName.foldl
      (fun acc p => updateA acc p.2.name
        (max (p.2.stock - lookupD s.invoiceQty p.2.name 0) 0)) []
    let rows' := saveStockUpdates s.repoRows levels
    ({ medsByName := medsDict (listMedicines rows')
       invoiceItems := []
       invoiceQty := []
       selectedMedicine := none
       repoRows := rows'
       fileRows2 := rows' }, .printed2)

/-- Sum of the quantities carried by the items of a given (exact) name,
used to state the merge invariant. -/
def qtySum : List InvoiceItemM → String → Int
  | [], _ => 0
  | it :: rest, n => (if it.name = n then it.qty else 0) + qtySum rest n

/-- A fresh session over a loaded store: empty invoice, empty ledger, no
selection (the `MainWindow.__init__` state after `_load_store`). -/
def initUI (rows : List Row) : UIState :=
  { store := loadStore rows, invoice := ⟨[]⟩, addedQty := []
    selectedName := none, stockShown := none }

/-- A stock cell that is empty or non-numeric (`int(value)` fails). -/
def nonNumericInt (v : Value) : Prop :=
  isBlank v = true ∨ ∃ s : String, v = .vstr s ∧ pyIntOfStr s = none

/-- A price cell that is empty or non-numeric (`float(value)` fails). -/
def nonNumericFloat (v : Value) : Prop :=
  isBlank v = true ∨ ∃ s : String, v = .vstr s ∧ pyFloatOfStr s = none

/-! ### Association-list lemmas -/

theorem lookupA_updateA_self {α : Type} (l : List (String × α)) (k : String) (v : α) :
    lookupA (updateA l k v) k = some v := by
  induction l with
  | nil => simp [updateA, lookupA]
  | cons p rest ih =>
      by_cases h : p.1 = k
      · simp [updateA, h, lookupA]
      · simp [updateA, h, lookupA, ih]

theorem lookupA_updateA_ne {α : Type} (l : List (String × α)) (k k' : String) (v : α)
    (h : k' ≠ k) : lookupA (updateA l k v) k' = lookupA l k' := by
  induction l with
  | nil => simp [updateA, lookupA, Ne.symm h]
  | cons p rest ih =>
      by_cases hp : p.1 = k
      · have hpk' : p.1 ≠ k' := by rw [hp]; exact Ne.symm h
        simp [updateA, hp, lookupA, Ne.symm h, hpk']
      · by_cases hp' : p.1 = k'
        · simp [updateA, hp, lookupA, hp', h]
        · simp [updateA, hp, lookupA, hp', ih]

theorem lookupA_eq_none_iff {α : Type} (l : List (String × α)) (k : String) :
    lookupA l k = none ↔ ∀ p ∈ l, p.1 ≠ k := by
  induction l with
  | nil => simp [lookupA]
  | cons p rest ih =>
      by_cases hp : p.1 = k
      · simp [lookupA, hp]
      · simp [lookupA, hp, ih]

theorem lookupD_updateA_self {α : Type} (l : List (String × α)) (k : String) (v d : α) :
    lookupD (updateA l k v) k d = v := by
  simp [lookupD, lookupA_updateA_self]

/-- Claim C4: for every invoice, `netTotal 0 = subtotal`, `netTotal 100 = 0`,
and for every percent `p` between `0` and `100`,
`discountAmount p + netTotal p = subtotal`. -/
theorem c4_totals_algebra (inv : Invoice) :
    inv.netTotal 0 = inv.subtotal ∧
    inv.netTotal 100 = 0 ∧
    ∀ p : Rat, 0 ≤ p → p ≤ 100 →
      inv.discountAmount p + inv.netTotal p = inv.subtotal := by
  refine ⟨?_, ?_, ?_⟩
  · simp [Invoice.netTotal, Invoice.discountAmount]
  · simp [Invoice.netTotal, Invoice.discountAmount]
  · intro p _ _
    simp [Invoice.netTotal, Invoice.discountAmount]

/-- Witness for C4 at a concrete invoice and `p = 10` (Scenario C:
subtotal 200, 10% discount). -/
theorem c4_totals_algebra_witness :
    (Invoice.mk [⟨"Paracetamol", "", "", 20, 10⟩]).discountAmount 10 +
      (Invoice.mk [⟨"Paracetamol", "", "", 20, 10⟩]).netTotal 10 =
      (Invoice.mk [⟨"Paracetamol", "", "", 20, 10⟩]).subtotal :=
  (c4_totals_algebra _).2.2 10 (by norm_num) (by norm_num)

/-- Counterexample to claim C3 as stated: `Invoice.add_item` merges by
case-sensitive name equality, so adding `"A"` and then `"a"` (the same
case-insensitive key) produces two line items. -/
theorem c3_counterexample :
    (((Invoice.mk []).addItem ⟨"A", "", "", 1, 1⟩).addItem ⟨"a", "", "", 1, 1⟩).items.length = 2 ∧
    ((((Invoice.mk []).addItem ⟨"A", "", "", 1, 1⟩).addItem ⟨"a", "", "", 1, 1⟩).items.filter
        (fun it => normalizeName it.name = normalizeName "a")).length = 2 := by
  constructor
  · rfl
  · decide

theorem addItemList_names (l : List InvoiceItemM) (it : InvoiceItemM) :
    (addItemList l it).map InvoiceItemM.name =
      if it.name ∈ l.map InvoiceItemM.name then l.map InvoiceItemM.name
      else l.map InvoiceItemM.name ++ [it.name] := by
  induction l with
  | nil => simp [addItemList]
  | cons x xs ih =>
      by_cases hx : x.name = it.name
      · simp [addItemList, hx]
      · by_cases hm : it.name ∈ xs.map InvoiceItemM.name
        · simp [addItemList, hx, ih, hm, Ne.symm hx]
        · simp [addItemList, hx, ih, hm, Ne.symm hx]

theorem qtySum_addItemList (l : List InvoiceItemM) (it : InvoiceItemM) (n : String) :
    qtySum (addItemList l it) n = qtySum l n + (if it.name = n then it.qty else 0) := by
  induction l with
  | nil => by_cases h : it.name = n <;> simp [addItemList, qtySum, h]
  | cons x xs ih =>
      by_cases hx : x.name = it.name
      · by_cases hn : x.name = n
        · have hin : it.name = n := hx.symm.trans hn
          simp [addItemList, hx, qtySum, hn, hin]
          ring
        · have hin : it.name ≠ n := fun h => hn (hx.trans h)
          simp [addItemList, hx, qtySum, hn, hin]
      · by_cases hn : x.name = n
        · have hni : ¬n = it.name := fun h => hx (hn.trans h)
          simp [addItemList, hx, qtySum, hn, hni, ih]
          ring
        · simp [addItemList, hx, qtySum, hn, ih]

theorem addItemList_nodup (l : List InvoiceItemM) (it : InvoiceItemM)
    (h : (l.map InvoiceItemM.name).Nodup) :
    ((addItemList l it).map InvoiceItemM.name).Nodup := by
  rw [addItemList_names]
  by_cases hm : it.name ∈ l.map InvoiceItemM.name
  · simp [hm, h]
  · simp [hm, h, List.nodup_append]

theorem foldl_addItem_qtySum (adds : List InvoiceItemM) :
    ∀ (inv : Invoice) (n : String),
      qtySum (adds.foldl Invoice.addItem inv).items n = qtySum inv.items n + qtySum adds n := by
  induction adds with
  | nil => intro inv n; simp [qtySum]
  | cons a rest ih =>
      intro inv n
      simp only [List.foldl_cons]
      rw [ih]
      show qtySum (addItemList inv.items a) n + qtySum rest n = _
      rw [qtySum_addItemList]
      show _ = qtySum inv.items n + ((if a.name = n then a.qty else 0) + qtySum rest n)
      ring

theorem foldl_addItem_nodup (adds : List InvoiceItemM) :
    ∀ inv : Invoice, (inv.items.map InvoiceItemM.name).Nodup →
      ((adds.foldl Invoice.addItem inv).items.map InvoiceItemM.name).Nodup := by
  induction adds with
  | nil => intro inv h; simpa using h
  | cons a rest ih =>
      intro inv h
      simp only [List.foldl_cons]
      exact ih _ (addItemList_nodup _ _ h)

/-- Claim C3 (amended): `Invoice.add_item` merges by exact, case-sensitive
name equality.  After any sequence of adds the invoice has at most one
line item per exact name, the quantity of a name's line items equals the
sum of all adds carrying that exact name, and an add whose exact name is
already present changes no line-item names (it merges instead of
appending). -/
theorem c3_addItem_merge_exact (adds : List InvoiceItemM) :
    ((adds.foldl Invoice.addItem ⟨[]⟩).items.map InvoiceItemM.name).Nodup ∧
    (∀ n : String, qtySum (adds.foldl Invoice.addItem ⟨[]⟩).items n = qtySum adds n) ∧
    (∀ (inv : Invoice) (it : InvoiceItemM), it.name ∈ inv.items.map InvoiceItemM.name →
       (inv.addItem it).items.map InvoiceItemM.name = inv.items.map InvoiceItemM.name) := by
  refine ⟨foldl_addItem_nodup adds ⟨[]⟩ (by simp), ?_, ?_⟩
  · intro n
    have := foldl_addItem_qtySum adds ⟨[]⟩ n
    simpa [qtySum] using this
  · intro inv it hmem
    show (addItemList inv.items it).map InvoiceItemM.name = _
    rw [addItemList_names]
    simp [hmem]

/-- Witness for C3 (amended): Scenario B, adding `Paracetamol` quantity 10
twice merges into one line of quantity 20; the third conjunct applied at a
concrete invoice already containing the name. -/
theorem c3_addItem_merge_exact_witness :
    qtySum ([⟨"Paracetamol", "", "", 5, 10⟩, ⟨"Paracetamol", "", "", 5, 10⟩].foldl
        Invoice.addItem ⟨[]⟩).items "Paracetamol" =
      qtySum [⟨"Paracetamol", "", "", 5, 10⟩, ⟨"Paracetamol", "", "", 5, 10⟩] "Paracetamol" ∧
    (InvoiceItemM.mk "A" "" "" 1 2).name ∈
      [InvoiceItemM.mk "A" "" "" 1 1].map InvoiceItemM.name ∧
    ((Invoice.mk [⟨"A", "", "", 1, 1⟩]).addItem ⟨"A", "", "", 1, 2⟩).items.map
        InvoiceItemM.name = [InvoiceItemM.mk "A" "" "" 1 1].map InvoiceItemM.name :=
  ⟨(c3_addItem_merge_exact _).2.1 "Paracetamol", by decide,
   (c3_addItem_merge_exact []).2.2 (Invoice.mk [⟨"A", "", "", 1, 1⟩]) ⟨"A", "", "", 1, 2⟩
     (by decide)⟩

/-- Claim C5: `reduce_stock` rejects a non-positive quantity, reports
not-found for an unknown normalized name, reports insufficient stock when
the quantity exceeds the record's current stock — each failure raising
before any state change (the error branches return no mutated store) —
and on success decrements exactly that record's in-memory stock by `qty`
while leaving the on-disk rows (the external source) untouched. -/
theorem c5_reduceStock_spec (st : Store) (name : String) (qty : Int) :
    (qty ≤ 0 → reduceStock st name qty = .error .badQty) ∧
    (0 < qty → lookupA st.records (normalizeName name) = none →
      reduceStock st name qty = .error .notFound) ∧
    (∀ r : MedRecord, 0 < qty → lookupA st.records (normalizeName name) = some r →
      r.stock < qty → reduceStock st name qty = .error .insufficientStock) ∧
    (∀ r : MedRecord, 0 < qty → lookupA st.records (normalizeName name) = some r →
      qty ≤ r.stock →
      ∃ st' : Store, reduceStock st name qty = .ok st' ∧
        lookupA st'.records (normalizeName name) = some { r with stock := r.stock - qty } ∧
        (∀ k : String, k ≠ normalizeName name → lookupA st'.records k = lookupA st.records k) ∧
        st'.fileRows = st.fileRows) := by
  refine ⟨?_, ?_, ?_, ?_⟩
  · intro hq
    simp [reduceStock, hq]
  · intro hq hnone
    simp [reduceStock, not_le.mpr hq, hnone]
  · intro r hq hsome hlt
    simp [reduceStock, not_le.mpr hq, hsome]
    omega
  · intro r hq hsome hle
    have hnn : ¬(r.stock - qty < 0) := by omega
    have hred : reduceStock st name qty = .ok
        { st with
          records := updateA st.records (normalizeName name) { r with stock := r.stock - qty }
          sheetRows :=
            match lookupA st.rowRefs (normalizeName name) with
            | some i =>
                match st.sheetRows.get? i with
                | some row => st.sheetRows.set i (setStockCell row (.vint (r.stock - qty)))
                | none => st.sheetRows
            | none => st.sheetRows } := by
      simp [reduceStock, not_le.mpr hq, hsome, hnn]
    refine ⟨_, hred, ?_, ?_, rfl⟩
    · simp [lookupA_updateA_self]
    · intro k hk
      simp [lookupA_updateA_ne _ _ _ _ hk]

/-- Witness for C5: a one-record store; all four branches exercised. -/
theorem c5_reduceStock_spec_witness :
    ((0 : Int) ≤ 0 ∧
      reduceStock (loadStore [⟨.vstr "Panadol", .vnone, .vnone, .vint 7, .vint 5, .vnone⟩])
        "Panadol" 0 = .error .badQty) ∧
    ((0 : Int) < 3 ∧
      reduceStock (loadStore [⟨.vstr "Panadol", .vnone, .vnone, .vint 7, .vint 5, .vnone⟩])
        "Aspirin" 3 = .error .notFound) ∧
    ((7 : Int) < 9 ∧
      reduceStock (loadStore [⟨.vstr "Panadol", .vnone, .vnone, .vint 7, .vint 5, .vnone⟩])
        "Panadol" 9 = .error .insufficientStock) ∧
    ((3 : Int) ≤ 7 ∧
      ∃ st' : Store,
        reduceStock (loadStore [⟨.vstr "Panadol", .vnone, .vnone, .vint 7, .vint 5, .vnone⟩])
          "Panadol" 3 = .ok st' ∧
        lookupA st'.records (normalizeName "Panadol") =
          some { name := "Panadol", mg := "", rack := "", stock := 4, price := 5 } ∧
        st'.fileRows =
          (loadStore [⟨.vstr "Panadol", .vnone, .vnone, .vint 7, .vint 5, .vnone⟩]).fileRows) := by
  refine ⟨⟨le_refl 0, ?_⟩, ⟨by norm_num, ?_⟩, ⟨by norm_num, ?_⟩, ⟨by norm_num, ?_⟩⟩
  · exact (c5_reduceStock_spec _ _ _).1 (le_refl 0)
  · exact (c5_reduceStock_spec _ _ _).2.1 (by norm_num) (by decide)
  · exact (c5_reduceStock_spec _ _ _).2.2.1
      { name := "Panadol", mg := "", rack := "", stock := 7, price := 5 }
      (by norm_num) (by decide) (by norm_num)
  · obtain ⟨st', h1, h2, _h3, h4⟩ := (c5_reduceStock_spec
      (loadStore [⟨.vstr "Panadol", .vnone, .vnone, .vint 7, .vint 5, .vnone⟩])
      "Panadol" 3).2.2.2
      { name := "Panadol", mg := "", rack := "", stock := 7, price := 5 }
      (by norm_num) (by decide) (by norm_num)
    exact ⟨st', h1, h2, h4⟩

/-- Claim C2: in both checkout implementations, a failing print
collaborator (invalid printer / `print_receipt` returning `False`) aborts
the whole checkout before any stock mutation: the entire state — every
record's stock, the invoice's items, the reservation ledger — is returned
unchanged, and the print-failed signal is reported. -/
theorem c2_print_failure_aborts (s : UIState) (s2 : UI2State) :
    (s.invoice.items ≠ [] → onPrint s false = (s, .printFailed)) ∧
    (s2.invoiceItems ≠ [] → onPrintClicked s2 false = (s2, .printFailed2)) := by
  constructor
  · intro hne
    cases h : s.invoice.items with
    | nil => exact absurd h hne
    | cons a l => simp [onPrint, h]
  · intro hne
    cases h : s2.invoiceItems with
    | nil => exact absurd h hne
    | cons a l => simp [onPrintClicked, h]

/-- Witness for C2: concrete single-item invoices in both windows. -/
theorem c2_print_failure_aborts_witness :
    ((UIState.mk (loadStore []) ⟨[⟨"Panadol", "", "", 5, 2⟩]⟩ [("Panadol", 2)]
        (some "Panadol") (some 5)).invoice.items ≠ [] ∧
      onPrint (UIState.mk (loadStore []) ⟨[⟨"Panadol", "", "", 5, 2⟩]⟩ [("Panadol", 2)]
        (some "Panadol") (some 5)) false =
        (UIState.mk (loadStore []) ⟨[⟨"Panadol", "", "", 5, 2⟩]⟩ [("Panadol", 2)]
          (some "Panadol") (some 5), .printFailed)) ∧
    ((UI2State.mk [] [⟨⟨"Panadol", "", "", 7, 5, none⟩, 2⟩] [("Panadol", 2)] none [] []).invoiceItems ≠ [] ∧
      onPrintClicked (UI2State.mk [] [⟨⟨"Panadol", "", "", 7, 5, none⟩, 2⟩] [("Panadol", 2)] none [] [])
        false =
        (UI2State.mk [] [⟨⟨"Panadol", "", "", 7, 5, none⟩, 2⟩] [("Panadol", 2)] none [] [],
          .printFailed2)) := by
  refine ⟨⟨by decide, ?_⟩, ⟨by decide, ?_⟩⟩
  · exact (c2_print_failure_aborts _
      (UI2State.mk [] [⟨⟨"Panadol", "", "", 7, 5, none⟩, 2⟩] [("Panadol", 2)] none [] [])).1
      (by decide)
  · exact (c2_print_failure_aborts
      (UIState.mk (loadStore []) ⟨[⟨"Panadol", "", "", 5, 2⟩]⟩ [("Panadol", 2)]
        (some "Panadol") (some 5)) _).2
      (by decide)

/-! ### Load lemmas: `_read_rows` as a last-row-wins map builder -/

theorem normalizeName_parseRec (r : Row) :
    normalizeName (parseRec r).name = normValue r.nameCell := rfl

theorem lookupA_mem {α : Type} :
    ∀ (l : List (String × α)) (k : String) (v : α), lookupA l k = some v → (k, v) ∈ l := by
  intro l
  induction l with
  | nil => intro k v h; cases h
  | cons p rest ih =>
      intro k v h
      obtain ⟨k0, v0⟩ := p
      simp only [lookupA] at h
      by_cases hp : k0 = k
      · rw [if_pos hp] at h
        injection h with hv
        subst hp
        subst hv
        exact List.mem_cons_self _ _
      · rw [if_neg hp] at h
        exact List.mem_cons_of_mem _ (ih k v h)

theorem updateA_forall {α : Type} (P : String × α → Prop) :
    ∀ (l : List (String × α)) (k : String) (v : α),
      (∀ p ∈ l, P p) → P (k, v) → ∀ p ∈ updateA l k v, P p := by
  intro l
  induction l with
  | nil =>
      intro k v _ hv p hp
      simp only [updateA, List.mem_singleton] at hp
      exact hp ▸ hv
  | cons q rest ih =>
      intro k v hl hv p hp
      simp only [updateA] at hp
      by_cases hq : q.1 = k
      · rw [if_pos hq] at hp
        rcases List.mem_cons.mp hp with h | h
        · exact h ▸ hv
        · exact hl p (List.mem_cons_of_mem _ h)
      · rw [if_neg hq] at hp
        rcases List.mem_cons.mp hp with h | h
        · exact h ▸ hl q (List.mem_cons_self _ _)
        · exact ih k v (fun p hp => hl p (List.mem_cons_of_mem _ hp)) hv p h

theorem readRows_fold_records (norm : String) :
    ∀ (rows : List Row) (k : Nat) (acc : LoadAcc),
      lookupA ((List.enumFrom k rows).foldl readStep acc).records norm =
        (match lastMatch norm rows with
          | some (_, row) => some (parseRec row)
          | none => lookupA acc.records norm) := by
  intro rows
  induction rows with
  | nil => intro k acc; rfl
  | cons r rs ih =>
      intro k acc
      show lookupA ((List.enumFrom (k + 1) rs).foldl readStep (readStep acc (k, r))).records norm = _
      rw [ih]
      cases hlm : lastMatch norm rs with
      | some p => simp [lastMatch, hlm]
      | none =>
          by_cases hb : isBlank r.nameCell
          · simp [lastMatch, hlm, matchesNorm, hb, readStep]
          · by_cases hn : normValue r.nameCell = norm
            · simp [lastMatch, hlm, matchesNorm, hb, hn, readStep,
                normalizeName_parseRec, lookupA_updateA_self]
            · simp [lastMatch, hlm, matchesNorm, hb, hn, readStep, normalizeName_parseRec,
                lookupA_updateA_ne _ _ _ _ (fun h => hn h.symm)]

theorem readRows_fold_rowRefs (norm : String) :
    ∀ (rows : List Row) (k : Nat) (acc : LoadAcc),
      lookupA ((List.enumFrom k rows).foldl readStep acc).rowRefs norm =
        (match lastMatch norm rows with
          | some (i, _) => some (k + i)
          | none => lookupA acc.rowRefs norm) := by
  intro rows
  induction rows with
  | nil => intro k acc; rfl
  | cons r rs ih =>
      intro k acc
      show lookupA ((List.enumFrom (k + 1) rs).foldl readStep (readStep acc (k, r))).rowRefs norm = _
      rw [ih]
      cases hlm : lastMatch norm rs with
      | some p =>
          simp only [lastMatch, hlm]
          congr 1
          omega
      | none =>
          by_cases hb : isBlank r.nameCell
          · simp [lastMatch, hlm, matchesNorm, hb, readStep]
          · by_cases hn : normValue r.nameCell = norm
            · simp [lastMatch, hlm, matchesNorm, hb, hn, readStep,
                normalizeName_parseRec, lookupA_updateA_self]
            · simp [lastMatch, hlm, matchesNorm, hb, hn, readStep, normalizeName_parseRec,
                lookupA_updateA_ne _ _ _ _ (fun h => hn h.symm)]

theorem records_lookup_eq (rows : List Row) (norm : String) :
    lookupA (readRows rows).records norm =
      (match lastMatch norm rows with
        | some (_, row) => some (parseRec row)
        | none => none) := by
  have h := readRows_fold_records norm rows 0 ⟨[], [], []⟩
  simpa [readRows, lookupA] using h

theorem rowRefs_lookup_eq (rows : List Row) (norm : String) :
    lookupA (readRows rows).rowRefs norm =
      (match lastMatch norm rows with
        | some (i, _) => some i
        | none => none) := by
  have h := readRows_fold_rowRefs norm rows 0 ⟨[], [], []⟩
  cases hlm : lastMatch norm rows with
  | some p => rw [hlm] at h; simpa [readRows, lookupA] using h
  | none => rw [hlm] at h; simpa [readRows, lookupA] using h

theorem readRows_key (rows : List Row) :
    ∀ p ∈ (readRows rows).records, p.1 = normalizeName p.2.name := by
  suffices h : ∀ (l : List (Nat × Row)) (acc : LoadAcc),
      (∀ p ∈ acc.records, p.1 = normalizeName p.2.name) →
      ∀ p ∈ (l.foldl readStep acc).records, p.1 = normalizeName p.2.name by
    exact h rows.enum ⟨[], [], []⟩ (by simp)
  intro l
  induction l with
  | nil => intro acc hacc; exact hacc
  | cons ir rest ih =>
      intro acc hacc
      refine ih (readStep acc ir) ?_
      by_cases hb : isBlank ir.2.nameCell
      · simpa [readStep, hb] using hacc
      · simp only [readStep, hb, Bool.false_eq_true, if_false]
        exact updateA_forall _ acc.records _ _ hacc rfl

theorem lastMatch_get (norm : String) :
    ∀ (rows : List Row) (i : Nat) (row : Row), lastMatch norm rows = some (i, row) →
      rows.get? i = some row ∧ matchesNorm norm row = true := by
  intro rows
  induction rows with
  | nil => intro i row h; cases h
  | cons r rs ih =>
      intro i row h
      simp only [lastMatch] at h
      cases hlm : lastMatch norm rs with
      | some p =>
          obtain ⟨j, row'⟩ := p
          rw [hlm] at h
          cases h
          exact (ih j row hlm)
      | none =>
          rw [hlm] at h
          by_cases hm : matchesNorm norm r
          · rw [if_pos hm] at h
            cases h
            exact ⟨rfl, hm⟩
          · rw [if_neg hm] at h
            cases h

theorem lastMatch_set (norm : String) :
    ∀ (rows : List Row) (i : Nat) (row row' : Row),
      lastMatch norm rows = some (i, row) → matchesNorm norm row' = true →
      lastMatch norm (rows.set i row') = some (i, row') := by
  intro rows
  induction rows with
  | nil => intro i row row' h; cases h
  | cons r rs ih =>
      intro i row row' h hm'
      simp only [lastMatch] at h
      cases hlm : lastMatch norm rs with
      | some p =>
          obtain ⟨j, rw0⟩ := p
          rw [hlm] at h
          cases h
          have hset := ih j row row' hlm hm'
          show (match lastMatch norm (rs.set j row') with
            | some (i, rr) => some (i + 1, rr)
            | none => if matchesNorm norm r then some (0, r) else none) = some (j + 1, row')
          rw [hset]
      | none =>
          rw [hlm] at h
          by_cases hm : matchesNorm norm r
          · rw [if_pos hm] at h
            cases h
            show (match lastMatch norm rs with
              | some (i, rr) => some (i + 1, rr)
              | none => if matchesNorm norm row' then some (0, row') else none) = some (0, row')
            rw [hlm, if_pos hm']
          · rw [if_neg hm] at h
            cases h

/-- Claim C9: `get_medicine` finds a record exactly when the query,
trimmed of surrounding whitespace and lowercased, equals the record's
(trimmed, lowercased) name: a found record's normalized name equals the
normalized query, and the lookup misses exactly when no stored record's
normalized name equals the normalized query. -/
theorem c9_findByName_normalized (rows : List Row) (q : String) :
    (∀ r : MedRecord, getMedicine (loadStore rows) q = some r →
        normalizeName q = normalizeName r.name) ∧
    (getMedicine (loadStore rows) q = none ↔
        ∀ p ∈ (loadStore rows).records, normalizeName q ≠ normalizeName p.2.name) := by
  constructor
  · intro r h
    exact readRows_key rows _ (lookupA_mem _ _ _ h)
  · show lookupA (readRows rows).records (normalizeName q) = none ↔ _
    rw [lookupA_eq_none_iff]
    constructor
    · intro hall p hp heq
      exact hall p hp ((readRows_key rows p hp).trans heq.symm)
    · intro hall p hp heq
      exact hall p hp (heq.symm.trans (readRows_key rows p hp))

/-- Witness for C9: a padded upper-case query finds the record. -/
theorem c9_findByName_normalized_witness :
    getMedicine (loadStore [⟨.vstr "Panadol", .vnone, .vnone, .vint 7, .vint 5, .vnone⟩])
        "  PANADOL " =
      some { name := "Panadol", mg := "", rack := "", stock := 7, price := 5 } ∧
    normalizeName "  PANADOL " =
      normalizeName (MedRecord.mk "Panadol" "" "" 7 5).name :=
  ⟨by decide,
   (c9_findByName_normalized [⟨.vstr "Panadol", .vnone, .vnone, .vint 7, .vint 5, .vnone⟩]
     "  PANADOL ").1 _ (by decide)⟩

/-- A found record is also found under its own display name: the record's
key in `_records` is the normalization of its own name. -/
theorem getMedicine_self (rows : List Row) (n : String) (r : MedRecord)
    (h : getMedicine (loadStore rows) n = some r) :
    getMedicine (loadStore rows) r.name = some r := by
  have hkey := readRows_key rows _ (lookupA_mem _ _ _ h)
  show lookupA (loadStore rows).records (normalizeName r.name) = some r
  rw [← hkey]
  exact h

theorem matchesNorm_setStockCell (n : String) (r : Row) (v : Value) :
    matchesNorm n (setStockCell r v) = matchesNorm n r := rfl

theorem parseRec_setStockCell (r : Row) (v : Value) :
    parseRec (setStockCell r v) = { parseRec r with stock := toIntCell v 0 } := rfl

/-- Claim C6: for a loaded medicine with stock `r.stock` and any quantity
`0 < q ≤ r.stock`, decrementing by `q` (`reduce_stock`), committing
(`save`), and reloading a fresh store from the saved source yields a
record whose stock is `r.stock - q` for that medicine. -/
theorem c6_roundTrip (rows : List Row) (name : String) (r : MedRecord) (q : Int)
    (hfind : getMedicine (loadStore rows) name = some r)
    (h0 : 0 < q) (hq : q ≤ r.stock) :
    ∃ st1 : Store, reduceStock (loadStore rows) name q = .ok st1 ∧
      ∃ r' : MedRecord,
        getMedicine (loadStore (saveStore st1).fileRows) name = some r' ∧
        r'.stock = r.stock - q := by
  have hrec := records_lookup_eq rows (normalizeName name)
  have h1 : (match lastMatch (normalizeName name) rows with
      | some (_, row) => some (parseRec row)
      | none => none) = some r := by
    rw [← hrec]; exact hfind
  cases hlm : lastMatch (normalizeName name) rows with
  | none => rw [hlm] at h1; cases h1
  | some p =>
      obtain ⟨i, row⟩ := p
      rw [hlm] at h1
      injection h1 with hpr
      obtain ⟨hget, hmatch⟩ := lastMatch_get (normalizeName name) rows i row hlm
      have hrr : lookupA (readRows rows).rowRefs (normalizeName name) = some i := by
        rw [rowRefs_lookup_eq, hlm]
      have hnn : ¬(r.stock - q < 0) := by omega
      have hlt : ¬(r.stock < q) := by omega
      have hfind2 : lookupA (readRows rows).records (normalizeName name) = some r := hfind
      have hget2 : rows[i]? = some row := by rw [← List.get?_eq_getElem?]; exact hget
      have hred : reduceStock (loadStore rows) name q = .ok
          { loadStore rows with
            records := updateA (loadStore rows).records (normalizeName name)
              { r with stock := r.stock - q }
            sheetRows := rows.set i (setStockCell row (.vint (r.stock - q))) } := by
        simp [reduceStock, not_le.mpr h0, loadStore, hfind2, hnn, hlt, hrr, hget2]
      refine ⟨_, hred, parseRec (setStockCell row (.vint (r.stock - q))), ?_, ?_⟩
      · show lookupA (readRows (rows.set i (setStockCell row (.vint (r.stock - q))))).records
            (normalizeName name) = _
        rw [records_lookup_eq,
          lastMatch_set (normalizeName name) rows i row _ hlm
            (by rw [matchesNorm_setStockCell]; exact hmatch)]
      · rw [parseRec_setStockCell]
        simp [toIntCell, isBlank]

/-- Witness for C6: stock 7, decrement 3, reload gives stock 4. -/
theorem c6_roundTrip_witness :
    (getMedicine (loadStore [⟨.vstr "Panadol", .vnone, .vnone, .vint 7, .vint 5, .vnone⟩])
        "Panadol" = some { name := "Panadol", mg := "", rack := "", stock := 7, price := 5 } ∧
      (0 : Int) < 3 ∧ (3 : Int) ≤ 7) ∧
    (∃ st1 : Store,
      reduceStock (loadStore [⟨.vstr "Panadol", .vnone, .vnone, .vint 7, .vint 5, .vnone⟩])
        "Panadol" 3 = .ok st1 ∧
      ∃ r' : MedRecord,
        getMedicine (loadStore (saveStore st1).fileRows) "Panadol" = some r' ∧
        r'.stock = 7 - 3) :=
  ⟨⟨by decide, by norm_num, by norm_num⟩,
   c6_roundTrip [⟨.vstr "Panadol", .vnone, .vnone, .vint 7, .vint 5, .vnone⟩] "Panadol"
     { name := "Panadol", mg := "", rack := "", stock := 7, price := 5 } 3
     (by decide) (by norm_num) (by norm_num)⟩

theorem selectMedicineOp_store (s : UIState) (n : String) :
    (selectMedicineOp s n).store = s.store := by
  cases h : getMedicine s.store n <;> simp [selectMedicineOp, clearSel, h]

theorem selectMedicineOp_addedQty (s : UIState) (n : String) :
    (selectMedicineOp s n).addedQty = s.addedQty := by
  cases h : getMedicine s.store n <;> simp [selectMedicineOp, clearSel, h]

theorem selectMedicineOp_selected (s : UIState) (n : String) (r : MedRecord)
    (h : getMedicine s.store n = some r) :
    (selectMedicineOp s n).selectedName = some r.name := by
  simp [selectMedicineOp, h]

/-- One add-to-cart step preserves the reservation invariant for the
selected medicine: the store and selection are untouched, and the ledger
entry stays at most the record's stock. -/
theorem addToInvoice_step (rows : List Row) (r : MedRecord)
    (hself : getMedicine (loadStore rows) r.name = some r)
    (s : UIState) (q : Int)
    (hst : s.store = loadStore rows)
    (hsel : s.selectedName = some r.name)
    (hled : lookupD s.addedQty r.name 0 ≤ r.stock) :
    (addToInvoice s q).1.store = loadStore rows ∧
    (addToInvoice s q).1.selectedName = some r.name ∧
    lookupD (addToInvoice s q).1.addedQty r.name 0 ≤ r.stock := by
  have hget : getMedicine s.store r.name = some r := by rw [hst]; exact hself
  have havail : availableStock s r.name = max (r.stock - lookupD s.addedQty r.name 0) 0 := by
    simp [availableStock, hget]
  by_cases hq : availableStock s r.name < q
  · simp only [addToInvoice, hsel, hget, if_pos hq]
    exact ⟨hst, trivial, hled⟩
  · have hmax : max (r.stock - lookupD s.addedQty r.name 0) 0 =
        r.stock - lookupD s.addedQty r.name 0 := max_eq_left (by omega)
    have hqle : q ≤ r.stock - lookupD s.addedQty r.name 0 := by
      rw [havail, hmax] at hq; omega
    simp only [addToInvoice, hsel, hget, if_neg hq]
    refine ⟨?_, ?_, ?_⟩
    · rw [selectMedicineOp_store]; exact hst
    · exact selectMedicineOp_selected _ _ r (by rw [hst]; exact hself)
    · rw [selectMedicineOp_addedQty]
      simp only [lookupD_updateA_self]
      omega

/-- The invariant holds along any sequence of adds. -/
theorem runAdds_invariant (rows : List Row) (r : MedRecord)
    (hself : getMedicine (loadStore rows) r.name = some r) :
    ∀ (qtys : List Int) (s : UIState),
      s.store = loadStore rows →
      s.selectedName = some r.name →
      lookupD s.addedQty r.name 0 ≤ r.stock →
      lookupD (runAdds s qtys).addedQty r.name 0 ≤ r.stock := by
  intro qtys
  induction qtys with
  | nil => intro s _ _ hled; exact hled
  | cons q rest ih =>
      intro s hst hsel hled
      obtain ⟨h1, h2, h3⟩ := addToInvoice_step rows r hself s q hst hsel hled
      exact ih _ h1 h2 h3

/-- Claim C1: for every sequence of add-to-cart requests on the same
(selected) medicine, each accepted only when positive and at most the
available stock, the reservation ledger's total for that medicine never
exceeds the record's original stock. -/
theorem c1_reserved_le_stock (rows : List Row) (name : String) (r : MedRecord)
    (qtys : List Int)
    (hfind : getMedicine (loadStore rows) name = some r)
    (_hpos : ∀ q ∈ qtys, 0 < q)
    (hstock : 0 ≤ r.stock) :
    lookupD (runAdds (selectMedicineOp (initUI rows) name) qtys).addedQty r.name 0 ≤ r.stock := by
  have hself := getMedicine_self rows name r hfind
  refine runAdds_invariant rows r hself qtys _ ?_ ?_ ?_
  · rw [selectMedicineOp_store]; rfl
  · exact selectMedicineOp_selected _ _ r hfind
  · rw [selectMedicineOp_addedQty]
    simpa [initUI, lookupD, lookupA] using hstock

/-- Witness for C1: Scenario A shape — stock 100, adds 10 then 95 (the
second is rejected); the ledger holds 10 ≤ 100. -/
theorem c1_reserved_le_stock_witness :
    (getMedicine (loadStore [⟨.vstr "Paracetamol", .vnone, .vnone, .vint 100, .vint 5, .vnone⟩])
        "Paracetamol" =
      some { name := "Paracetamol", mg := "", rack := "", stock := 100, price := 5 } ∧
      (∀ q ∈ [(10 : Int), 95], 0 < q) ∧ (0 : Int) ≤ 100) ∧
    lookupD (runAdds (selectMedicineOp
        (initUI [⟨.vstr "Paracetamol", .vnone, .vnone, .vint 100, .vint 5, .vnone⟩])
        "Paracetamol") [(10 : Int), 95]).addedQty
      (MedRecord.mk "Paracetamol" "" "" 100 5).name 0 ≤
      (MedRecord.mk "Paracetamol" "" "" 100 5).stock :=
  ⟨⟨by decide, by decide, by norm_num⟩,
   c1_reserved_le_stock [⟨.vstr "Paracetamol", .vnone, .vnone, .vint 100, .vint 5, .vnone⟩]
     "Paracetamol" { name := "Paracetamol", mg := "", rack := "", stock := 100, price := 5 }
     [(10 : Int), 95] (by decide) (by decide) (by norm_num)⟩

/-- Claim C8: with a loaded store, entering a query that finds a record
selects it and shows `availableStock = record.stock - reservedQty[name]`
(the reservation defaulting to 0 when absent, and assumed within stock,
as every reachable ledger is); a query that finds nothing clears the
selection and pops the not-found message. -/
theorem c8_selectMedicine_spec (rows : List Row) (s : UIState) (text : String)
    (hstore : s.store = loadStore rows) :
    (∀ r : MedRecord, pyStrip text ≠ "" →
        getMedicine s.store (pyStrip text) = some r →
        lookupD s.addedQty r.name 0 ≤ r.stock →
        onSearchEnter s text =
          ({ s with selectedName := some r.name
                    stockShown := some (r.stock - lookupD s.addedQty r.name 0) }, none)) ∧
    (pyStrip text ≠ "" → getMedicine s.store (pyStrip text) = none →
        onSearchEnter s text = (clearSel s, some .notFoundMsg)) := by
  constructor
  · intro r ht hfind hled
    have hself : getMedicine s.store r.name = some r := by
      rw [hstore] at hfind ⊢
      exact getMedicine_self rows _ r hfind
    have hmax : max (r.stock - lookupD s.addedQty r.name 0) 0 =
        r.stock - lookupD s.addedQty r.name 0 := max_eq_left (by omega)
    simp only [onSearchEnter, if_neg ht, hfind]
    simp [selectMedicineOp, hself, availableStock, hmax]
  · intro ht hnone
    simp only [onSearchEnter, if_neg ht, hnone]

/-- Witness for C8: both branches at a concrete loaded store with 2
already reserved out of 7. -/
theorem c8_selectMedicine_spec_witness :
    (pyStrip " Panadol " ≠ "" ∧
      getMedicine (UIState.mk
          (loadStore [⟨.vstr "Panadol", .vnone, .vnone, .vint 7, .vint 5, .vnone⟩])
          ⟨[]⟩ [("Panadol", 2)] none none).store (pyStrip " Panadol ") =
        some { name := "Panadol", mg := "", rack := "", stock := 7, price := 5 } ∧
      lookupD [("Panadol", (2 : Int))] "Panadol" 0 ≤ (7 : Int) ∧
      onSearchEnter (UIState.mk
          (loadStore [⟨.vstr "Panadol", .vnone, .vnone, .vint 7, .vint 5, .vnone⟩])
          ⟨[]⟩ [("Panadol", 2)] none none) " Panadol " =
        (UIState.mk (loadStore [⟨.vstr "Panadol", .vnone, .vnone, .vint 7, .vint 5, .vnone⟩])
          ⟨[]⟩ [("Panadol", 2)] (some "Panadol") (some 5), none)) ∧
    (pyStrip "Aspirin" ≠ "" ∧
      getMedicine (UIState.mk
          (loadStore [⟨.vstr "Panadol", .vnone, .vnone, .vint 7, .vint 5, .vnone⟩])
          ⟨[]⟩ [("Panadol", 2)] none none).store (pyStrip "Aspirin") = none ∧
      onSearchEnter (UIState.mk
          (loadStore [⟨.vstr "Panadol", .vnone, .vnone, .vint 7, .vint 5, .vnone⟩])
          ⟨[]⟩ [("Panadol", 2)] none none) "Aspirin" =
        (clearSel (UIState.mk
          (loadStore [⟨.vstr "Panadol", .vnone, .vnone, .vint 7, .vint 5, .vnone⟩])
          ⟨[]⟩ [("Panadol", 2)] none none), some .notFoundMsg)) := by
  refine ⟨⟨by decide, by decide, by decide, ?_⟩, ⟨by decide, by decide, ?_⟩⟩
  · have h := (c8_selectMedicine_spec
      [⟨.vstr "Panadol", .vnone, .vnone, .vint 7, .vint 5, .vnone⟩]
      (UIState.mk (loadStore [⟨.vstr "Panadol", .vnone, .vnone, .vint 7, .vint 5, .vnone⟩])
        ⟨[]⟩ [("Panadol", 2)] none none) " Panadol " rfl).1
      { name := "Panadol", mg := "", rack := "", stock := 7, price := 5 }
      (by decide) (by decide) (by decide)
    simpa using h
  · exact (c8_selectMedicine_spec
      [⟨.vstr "Panadol", .vnone, .vnone, .vint 7, .vint 5, .vnone⟩]
      (UIState.mk (loadStore [⟨.vstr "Panadol", .vnone, .vnone, .vint 7, .vint 5, .vnone⟩])
        ⟨[]⟩ [("Panadol", 2)] none none) "Aspirin" rfl).2
      (by decide) (by decide)

theorem readRows_names_fold :
    ∀ (rows : List Row) (k : Nat) (acc : LoadAcc),
      ((List.enumFrom k rows).foldl readStep acc).names =
        acc.names ++ (rows.filter (fun r => !(isBlank r.nameCell))).map (fun r => pyStr r.nameCell) := by
  intro rows
  induction rows with
  | nil => intro k acc; simp
  | cons r rs ih =>
      intro k acc
      show ((List.enumFrom (k + 1) rs).foldl readStep (readStep acc (k, r))).names = _
      rw [ih]
      by_cases hb : isBlank r.nameCell
      · simp [readStep, hb, List.filter_cons]
      · simp [readStep, hb, List.filter_cons, parseRec]

/-- Claim C7: a row whose stock cell is blank or non-numeric loads with
stock 0; one whose price cell is blank or non-numeric (and with no
override price) loads with price 0; bad numeric cells never drop a row
(the loaded name list depends only on the name cells); and a medicine
loaded with zero stock shows `availableStock = 0` in a fresh session and
every positive-quantity add for it is rejected as insufficient. -/
theorem c7_graceful_degradation :
    (∀ row : Row, nonNumericInt row.stockCell → (parseRec row).stock = 0) ∧
    (∀ row : Row, nonNumericFloat row.priceCell → isBlank row.actualCell = true →
        (parseRec row).price = 0) ∧
    (∀ rows : List Row, (readRows rows).names =
        (rows.filter (fun r => !(isBlank r.nameCell))).map (fun r => pyStr r.nameCell)) ∧
    (∀ (rows : List Row) (name : String) (r : MedRecord) (inv : Invoice)
        (shown : Option Int) (q : Int),
        getMedicine (loadStore rows) name = some r → r.stock = 0 → 0 < q →
        availableStock (UIState.mk (loadStore rows) inv [] (some r.name) shown) r.name = 0 ∧
        addToInvoice (UIState.mk (loadStore rows) inv [] (some r.name) shown) q =
          (UIState.mk (loadStore rows) inv [] (some r.name) shown, .insufficient 0)) := by
  refine ⟨?_, ?_, ?_, ?_⟩
  · intro row h
    rcases h with hb | ⟨s, hs, hp⟩
    · simp [parseRec, toIntCell, hb]
    · by_cases hbs : s = ""
      · have hbl : isBlank row.stockCell = true := by rw [hs, hbs]; rfl
        simp [parseRec, toIntCell, hbl]
      · have hnb : isBlank row.stockCell = false := by
          rw [hs]; simpa [isBlank] using hbs
        simp [parseRec, toIntCell, hnb, hs, hp]
  · intro row h ha
    have hact : toFloatCell row.actualCell none = none := by
      simp [toFloatCell, ha]
    rcases h with hb | ⟨s, hs, hp⟩
    · simp [parseRec, toFloatCell, hb, ha]
    · by_cases hbs : s = ""
      · have hbl : isBlank row.priceCell = true := by rw [hs, hbs]; rfl
        simp [parseRec, toFloatCell, hbl, ha]
      · have hnb : isBlank row.priceCell = false := by
          rw [hs]; simpa [isBlank] using hbs
        simp [parseRec, toFloatCell, hnb, hs, hp, ha]
  · intro rows
    have h := readRows_names_fold rows 0 ⟨[], [], []⟩
    simpa [readRows] using h
  · intro rows name r inv shown q hfind h0 hq
    have hself : getMedicine (loadStore rows) r.name = some r :=
      getMedicine_self rows name r hfind
    have havail : availableStock (UIState.mk (loadStore rows) inv [] (some r.name) shown)
        r.name = 0 := by
      simp [availableStock, hself, lookupD, lookupA, h0]
    refine ⟨havail, ?_⟩
    simp only [addToInvoice, hself, havail]
    rw [if_pos hq]

/-- Witness for C7: a row with non-numeric stock and price cells loads
with stock 0 and price 0; Scenario E for it. -/
theorem c7_graceful_degradation_witness :
    (nonNumericInt (Value.vstr "n/a") ∧
      (parseRec ⟨.vstr "Syrup", .vnone, .vnone, .vstr "n/a", .vstr "n/a", .vnone⟩).stock = 0) ∧
    (nonNumericFloat (Value.vstr "n/a") ∧ isBlank Value.vnone = true ∧
      (parseRec ⟨.vstr "Syrup", .vnone, .vnone, .vstr "n/a", .vstr "n/a", .vnone⟩).price = 0) ∧
    (getMedicine (loadStore [⟨.vstr "Syrup", .vnone, .vnone, .vstr "n/a", .vstr "n/a", .vnone⟩])
        "Syrup" = some { name := "Syrup", mg := "", rack := "", stock := 0, price := 0 } ∧
      (0 : Int) < 4 ∧
      availableStock (UIState.mk
          (loadStore [⟨.vstr "Syrup", .vnone, .vnone, .vstr "n/a", .vstr "n/a", .vnone⟩])
          ⟨[]⟩ [] (some "Syrup") none) "Syrup" = 0 ∧
      addToInvoice (UIState.mk
          (loadStore [⟨.vstr "Syrup", .vnone, .vnone, .vstr "n/a", .vstr "n/a", .vnone⟩])
          ⟨[]⟩ [] (some "Syrup") none) 4 =
        (UIState.mk (loadStore [⟨.vstr "Syrup", .vnone, .vnone, .vstr "n/a", .vstr "n/a", .vnone⟩])
          ⟨[]⟩ [] (some "Syrup") none, .insufficient 0)) := by
  have hbad : nonNumericInt (Value.vstr "n/a") := Or.inr ⟨"n/a", rfl, by decide⟩
  have hbadf : nonNumericFloat (Value.vstr "n/a") := Or.inr ⟨"n/a", rfl, by decide⟩
  have h4 := c7_graceful_degradation.2.2.2
    [⟨.vstr "Syrup", .vnone, .vnone, .vstr "n/a", .vstr "n/a", .vnone⟩] "Syrup"
    { name := "Syrup", mg := "", rack := "", stock := 0, price := 0 } ⟨[]⟩ none 4
    (by decide) rfl (by norm_num)
  exact ⟨⟨hbad, c7_graceful_degradation.1 _ hbad⟩,
    ⟨hbadf, rfl, c7_graceful_degradation.2.1
      ⟨.vstr "Syrup", .vnone, .vnone, .vstr "n/a", .vstr "n/a", .vnone⟩ hbadf rfl⟩,
    by decide, by norm_num, h4.1, h4.2⟩

/-- Merging one add preserves equality of the `(name, qty)` projections
of the two implementations' item lists. -/
theorem addOrUpdate_proj (m : Medicine) (q : Int) (item : InvoiceItemM)
    (hn : item.name = m.name) (hq : item.qty = q) :
    ∀ (itemsA : List InvoiceItemM) (itemsB : List InvoiceItem2),
      itemsA.map (fun it => (it.name, it.qty)) =
        itemsB.map (fun it => (it.medicine.name, it.quantity)) →
      (addItemList itemsA item).map (fun it => (it.name, it.qty)) =
        (addOrUpdateList itemsB m q).map (fun it => (it.medicine.name, it.quantity)) := by
  intro itemsA
  induction itemsA with
  | nil =>
      intro itemsB h
      have hB : itemsB = [] := by
        cases itemsB with
        | nil => rfl
        | cons y ys => simp at h
      subst hB
      simp [addItemList, addOrUpdateList, hn, hq]
  | cons x xs ih =>
      intro itemsB h
      cases itemsB with
      | nil => simp at h
      | cons y ys =>
          simp only [List.map_cons, List.cons.injEq] at h
          obtain ⟨hhead, htail⟩ := h
          have hname : x.name = y.medicine.name := congrArg Prod.fst hhead
          have hqty : x.qty = y.quantity := congrArg Prod.snd hhead
          by_cases hx : x.name = item.name
          · have hy : y.medicine.name = m.name := by rw [← hname, hx, hn]
            simp [addItemList, addOrUpdateList, hx, hy, hn, hname, hqty, hq, htail]
          · have hy : ¬y.medicine.name = m.name := by
              rw [← hname]
              intro hc
              exact hx (hc.trans hn.symm)
            have hyitem : ¬y.medicine.name = item.name := fun hc => hy (hc.trans hn)
            simp [addItemList, addOrUpdateList, hx, hy, hyitem, hname, hqty, htail, ih _ htail]

/-- Folding the adds through `Invoice.add_item` tracks folding them
through `_add_or_update_item`'s loop. -/
theorem mergeFold_proj (adds : List (Medicine × Int)) :
    ∀ (itemsA : List InvoiceItemM) (itemsB : List InvoiceItem2),
      itemsA.map (fun it => (it.name, it.qty)) =
        itemsB.map (fun it => (it.medicine.name, it.quantity)) →
      ((adds.foldl (fun acc p =>
          addItemList acc ⟨p.1.name, p.1.mg, p.1.rackNumber, p.1.effectivePrice, p.2⟩)
          itemsA).map (fun it => (it.name, it.qty))) =
        ((adds.foldl (fun st p => addOrUpdateList st p.1 p.2) itemsB).map
          (fun it => (it.medicine.name, it.quantity))) := by
  induction adds with
  | nil => intro itemsA itemsB h; simpa using h
  | cons p rest ih =>
      intro itemsA itemsB h
      simp only [List.foldl_cons]
      exact ih _ _ (addOrUpdate_proj p.1 p.2 _ rfl rfl _ _ h)

/-- `Invoice.add_item` folded from an invoice is the list-level fold. -/
theorem foldl_addItem_items (adds : List (Medicine × Int)) :
    ∀ l : List InvoiceItemM,
      ((adds.foldl (fun (inv : Invoice) p =>
          inv.addItem ⟨p.1.name, p.1.mg, p.1.rackNumber, p.1.effectivePrice, p.2⟩)
          (Invoice.mk l)).items) =
        adds.foldl (fun acc p =>
          addItemList acc ⟨p.1.name, p.1.mg, p.1.rackNumber, p.1.effectivePrice, p.2⟩) l := by
  induction adds with
  | nil => intro l; rfl
  | cons p rest ih => intro l; exact ih _

/-- Claim C10: the two cart-merge implementations are equivalent — for
every sequence of adds (a medicine plus a positive quantity, the line
item built from the medicine's fields as `_add_to_invoice` does), the
resulting line items agree in names, order, and per-name quantities. -/
theorem c10_merge_equivalence (adds : List (Medicine × Int))
    (_hpos : ∀ p ∈ adds, 0 < p.2) :
    ((adds.foldl (fun (inv : Invoice) p =>
        inv.addItem ⟨p.1.name, p.1.mg, p.1.rackNumber, p.1.effectivePrice, p.2⟩)
        (Invoice.mk [])).items.map (fun it => (it.name, it.qty))) =
      ((adds.foldl (fun st p => addOrUpdateList st p.1 p.2) []).map
        (fun it => (it.medicine.name, it.quantity))) := by
  rw [foldl_addItem_items adds []]
  exact mergeFold_proj adds [] [] rfl

/-- Witness for C10: two merging adds and one fresh-name add. -/
theorem c10_merge_equivalence_witness :
    (∀ p ∈ [((Medicine.mk "Panadol" "" "" 7 5 none), (2 : Int)),
            ((Medicine.mk "Aspirin" "" "" 9 3 none), (1 : Int)),
            ((Medicine.mk "Panadol" "" "" 7 5 none), (4 : Int))], 0 < p.2) ∧
    (([((Medicine.mk "Panadol" "" "" 7 5 none), (2 : Int)),
       ((Medicine.mk "Aspirin" "" "" 9 3 none), (1 : Int)),
       ((Medicine.mk "Panadol" "" "" 7 5 none), (4 : Int))].foldl (fun (inv : Invoice) p =>
          inv.addItem ⟨p.1.name, p.1.mg, p.1.rackNumber, p.1.effectivePrice, p.2⟩)
          (Invoice.mk [])).items.map (fun it => (it.name, it.qty))) =
      (([((Medicine.mk "Panadol" "" "" 7 5 none), (2 : Int)),
         ((Medicine.mk "Aspirin" "" "" 9 3 none), (1 : Int)),
         ((Medicine.mk "Panadol" "" "" 7 5 none), (4 : Int))].foldl (fun st p =>
            addOrUpdateList st p.1 p.2) []).map
        (fun it => (it.medicine.name, it.quantity))) :=
  ⟨by decide,
   c10_merge_equivalence
     [((Medicine.mk "Panadol" "" "" 7 5 none), (2 : Int)),
      ((Medicine.mk "Aspirin" "" "" 9 3 none), (1 : Int)),
      ((Medicine.mk "Panadol" "" "" 7 5 none), (4 : Int))] (by decide)⟩

end PharmaSpec
